import Mathlib

/-!
Shallow embedding of neon/callbacks/callbacks.py (Python 2) and proofs about
its callback dispatch, frequency policy, checkpoint rotation, cost smoothing,
loss caching, best-state saving and early stopping.

Python 2 semantics modelled explicitly: `/` on ints is floor division
(`Nat` division here), `range(0, n, s)` is an eager list, and a comparison
`number < None` is `False`.
-/

namespace Neon

/-- Frequency specification accepted by `Callback.should_fire`: a plain
integer (fire every `n` ticks), an explicit list of ticks, or `None`
(never fire). -/
inductive FreqSpec where
  | int (n : Nat)
  | list (ts : List Nat)
  | none
deriving DecidableEq, Repr

/-- `Callback.should_fire(time, freq)`: fires when `freq` is an int `f` and
`(time + 1) % f == 0`, or when `freq` is a list containing `time`;
`None` never fires. -/
def should_fire (time : Nat) (freq : FreqSpec) : Bool :=
  match freq with
  | .int f => (time + 1) % f == 0
  | .list f => time ∈ f
  | .none => false

/-- Python 2 `range(0, stop, step)` for `step ≥ 1`: the list
`[0, step, 2*step, ...]` of elements below `stop`. -/
def pyRange (stop step : Nat) : List Nat :=
  (List.range ((stop + step - 1) / step)).map (fun k => k * step)

/-- `Callbacks.__init__`: `serialize_interval = serialize if serialize > 1
else 1`. -/
def serialize_interval (serialize : Nat) : Nat :=
  if serialize > 1 then serialize else 1

/-- `Callbacks.__init__`: `checkpoint_schedule = range(0, epochs,
serialize_interval)`, passed as the checkpoint callback's `epoch_freq`. -/
def checkpoint_schedule (epochs serialize : Nat) : List Nat :=
  pyRange epochs (serialize_interval serialize)

/-- Private state of `SerializeModelCallback`: the retention count
(`history`) and the deque of checkpoint filenames, keyed here by the epoch
spliced into the filename (front = oldest). -/
structure SerializeState where
  history : Nat
  checkpoint_files : List Nat
deriving DecidableEq, Repr

/-- `SerializeModelCallback.save_history(epoch)`: if the deque length
exceeds `history`, pop and delete the oldest file; then append the new
file named by `epoch` and write it.  (All deletions assumed to succeed, so
the deque equals the on-disk set.) -/
def save_history (s : SerializeState) (epoch : Nat) : SerializeState :=
  let files :=
    if s.checkpoint_files.length > s.history then s.checkpoint_files.tail
    else s.checkpoint_files
  { s with checkpoint_files := files ++ [epoch] }

/-- Run `save_history` over a sequence of firing epochs starting from an
empty deque, as `SerializeModelCallback.on_epoch_end` does when
`history > 1`. -/
def run_save_history (history : Nat) (epochs : List Nat) : SerializeState :=
  epochs.foldl save_history { history := history, checkpoint_files := [] }

example : (run_save_history 2 [0, 1, 2, 3]).checkpoint_files = [1, 2, 3] := by decide

example : should_fire 0 (.list (checkpoint_schedule 5 2)) = true := by decide

example : checkpoint_schedule 5 2 = [0, 2, 4] := by decide

/-- `LossCallback.on_train_begin`: both series are allocated with
`epochs / self.epoch_freq` slots (Python 2 integer division). -/
def loss_series_len (epochs epoch_freq : Nat) : Nat :=
  epochs / epoch_freq

/-- The slots of the loss series written once `completed` epochs have run:
`LossCallback.on_epoch_end` fires at epoch `e` when `(e+1) % epoch_freq == 0`
and writes at slot `e / epoch_freq`. -/
def loss_writes (completed epoch_freq : Nat) : List Nat :=
  ((List.range completed).filter (fun e => should_fire e (.int epoch_freq))).map
    (fun e => e / epoch_freq)

/-- Python `collections.deque` with `maxlen`: appending to a full deque
evicts from the opposite (front) end, keeping the last `maxlen`
elements. -/
def deque_append (maxlen : Nat) (xs : List ℚ) (x : ℚ) : List ℚ :=
  (xs ++ [x]).drop ((xs ++ [x]).length - maxlen)

/-- `TrainCostCallback.on_train_begin`: `wsz = min(total_minibatches, wsz)`. -/
def train_cost_wsz (total_minibatches wsz : Nat) : Nat :=
  min total_minibatches wsz

/-- `TrainCostCallback.on_minibatch_end`: append the minibatch cost to the
window, then record `sum(window) / len(window)`.  The accumulator carries
the window and the sequence of recorded values. -/
def train_cost_step (wsz : Nat) (acc : List ℚ × List ℚ) (c : ℚ) :
    List ℚ × List ℚ :=
  (deque_append wsz acc.1 c,
   acc.2 ++ [(deque_append wsz acc.1 c).sum / ((deque_append wsz acc.1 c).length : ℚ)])

/-- The values `TrainCostCallback` records over a run of minibatch costs,
in global-tick order, starting from an empty window. -/
def train_cost_run (wsz : Nat) (costs : List ℚ) : List ℚ :=
  (costs.foldl (train_cost_step wsz) ([], [])).2

/-- `TrainCostCallback.on_minibatch_end` write index:
`time_markers/minibatch[epoch-1] + minibatch` for `epoch > 0`, else
`0 + minibatch`. -/
def train_cost_write_pos (marker : Nat → Nat) (epoch minibatch : Nat) : Nat :=
  (if epoch > 0 then marker (epoch - 1) else 0) + minibatch

example : train_cost_run 2 [1, 2, 3, 4] = [1, 3/2, 5/2, 7/2] := by
  norm_num [train_cost_run, train_cost_step, deque_append]

/-- Dispatcher (`Callbacks`) state relevant to the minibatch marker:
`epoch_marker` is the running cumulative count, `epoch_minibatches` is the
attribute assigned only by `on_minibatch_end` (`Option.none` models
"never assigned"), and `time_markers` holds `time_markers/minibatch[e]`
for each completed epoch `e` in order. -/
structure CallbacksState where
  epoch_marker : Nat
  epoch_minibatches : Option Nat
  time_markers : List Nat
deriving DecidableEq, Repr

/-- `Callbacks.__init__`: `epoch_marker = 0`; `epoch_minibatches` has no
initial value. -/
def init_callbacks : CallbacksState :=
  { epoch_marker := 0, epoch_minibatches := Option.none, time_markers := [] }

/-- `Callbacks.on_minibatch_end(epoch, minibatch)` (state part):
`epoch_minibatches = minibatch + 1`. -/
def on_minibatch_end (s : CallbacksState) (minibatch : Nat) : CallbacksState :=
  { s with epoch_minibatches := some (minibatch + 1) }

/-- `Callbacks.on_epoch_end(epoch)` (state part): reads
`epoch_minibatches` — an `AttributeError` (`Option.none` result) if it was
never assigned — then accumulates it into `epoch_marker` and writes the
marker at the epoch's slot. -/
def on_epoch_end (s : CallbacksState) : Option CallbacksState :=
  match s.epoch_minibatches with
  | Option.none => Option.none
  | some n =>
      some { s with epoch_marker := s.epoch_marker + n,
                    time_markers := s.time_markers ++ [s.epoch_marker + n] }

/-- One epoch of the normal training lifecycle: `on_minibatch_end` for
minibatches `0..mbs-1`, then `on_epoch_end`. -/
def run_epoch (s : CallbacksState) (mbs : Nat) : Option CallbacksState :=
  on_epoch_end ((List.range mbs).foldl on_minibatch_end s)

/-- A full run: epoch `e` processes `counts[e]` minibatches. -/
def run_training (counts : List Nat) : Option CallbacksState :=
  counts.foldlM run_epoch init_callbacks

example : (run_training [4, 4, 4]).map CallbacksState.time_markers
    = some [4, 8, 12] := by decide

/-- The loss series as stored under `cost/loss` and `time/loss` with its
`epoch_freq` attribute. -/
structure LossSeries where
  epoch_freq : Nat
  cost : List ℚ
  time : List ℚ
deriving Repr

/-- The bundle `_get_cached_epoch_loss` returns when the loss is
available. -/
structure EpochLoss where
  cost : ℚ
  time : ℚ
  costnm : String
deriving DecidableEq, Repr

/-- `Callback._get_cached_epoch_loss(epoch, label)`: `Option.none` when no
series is stored under the label; otherwise a value exactly when
`(epoch + 1) % epoch_freq == 0`, read from slot `epoch / epoch_freq`
(Python 2 integer division).  Pure read: the store is not modified. -/
def get_cached_epoch_loss (costnm : String) (series : Option LossSeries)
    (epoch : Nat) : Option EpochLoss :=
  match series with
  | Option.none => Option.none
  | some s =>
      if (epoch + 1) % s.epoch_freq == 0 then
        some { cost := s.cost.getD (epoch / s.epoch_freq) 0,
               time := s.time.getD (epoch / s.epoch_freq) 0,
               costnm := costnm }
      else Option.none

/-- Python 2 comparison `cost < best` where `best` may be `None`: any
number compared `<` against `None` is `False`. -/
def py_lt_none (c : ℚ) (best : Option ℚ) : Bool :=
  match best with
  | Option.none => false
  | some b => c < b

/-- Private state of `SaveBestStateCallback`: `best_cost` (initially
`None`) plus the record of serializations performed (the cost at each
save). -/
structure SaveBestState where
  best_cost : Option ℚ
  saves : List ℚ
deriving DecidableEq, Repr

/-- `SaveBestStateCallback.on_epoch_end`: no-op when the cached loss is
unavailable; otherwise save and update `best_cost` when
`cost < best_cost or best_cost is None`. -/
def save_best_epoch_end (st : SaveBestState) (eil : Option ℚ) : SaveBestState :=
  match eil with
  | Option.none => st
  | some cost =>
      if py_lt_none cost st.best_cost || st.best_cost.isNone then
        { best_cost := some cost, saves := st.saves ++ [cost] }
      else st

/-- A run of `SaveBestStateCallback` over the per-epoch cached losses
(`Option.none` = loss unavailable that epoch). -/
def save_best_run (losses : List (Option ℚ)) : SaveBestState :=
  losses.foldl save_best_epoch_end { best_cost := Option.none, saves := [] }

/-- `EarlyStopCallback.on_epoch_end`: no-op when the cached loss is
unavailable; otherwise replace the fold state with the one `stop_func`
returns and set the model's `finished` flag when it says to stop (never
cleared). The pair is (fold state, model.finished). -/
def early_stop_epoch_end {S : Type} (stop_func : S → ℚ → S × Bool)
    (st : S × Bool) (eil : Option ℚ) : S × Bool :=
  match eil with
  | Option.none => st
  | some cost =>
      let r := stop_func st.1 cost
      (r.1, if r.2 then true else st.2)

/-- A run of `EarlyStopCallback` over the per-epoch cached losses, from
initial fold state `init` (Python starts at `None`) with the model not
finished. -/
def early_stop_run {S : Type} (stop_func : S → ℚ → S × Bool) (init : S)
    (losses : List (Option ℚ)) : S × Bool :=
  losses.foldl (early_stop_epoch_end stop_func) (init, false)

/-- Cumulative minibatch markers from a running base: entry `e` is `base`
plus the sum of the first `e + 1` per-epoch minibatch counts. -/
def cum_markers (base : Nat) : List Nat → List Nat
  | [] => []
  | c :: cs => (base + c) :: cum_markers (base + c) cs

/-- A sample user stop function for concrete evaluation: increments a
counter state and stops as soon as the cost is ≤ 0. -/
def sample_stop_func (s : Nat) (c : ℚ) : Nat × Bool :=
  (s + 1, decide (c ≤ 0))

/-- A sample stored loss series for concrete evaluation. -/
def sample_loss_series : LossSeries :=
  { epoch_freq := 2, cost := [10, 20], time := [1, 2] }

/-! ### Theorems -/

/-- C8: `should_fire(t, freqSpec)` returns true iff freqSpec is an integer
`n` with `(t + 1) % n == 0`, or freqSpec is an explicit tick list
containing `t`; in particular the `None` spec never fires.  The same
predicate is the one the dispatcher applies at both epoch and minibatch
level. -/
theorem should_fire_characterization (t : Nat) (fs : FreqSpec) :
    should_fire t fs = true ↔
      ((∃ n, fs = .int n ∧ (t + 1) % n = 0) ∨ (∃ l, fs = .list l ∧ t ∈ l)) := by
  cases fs <;> simp [should_fire]

/-- C1: evaluation at the claim's own scenario (retention 2, firing epochs
`[0,1,2,3]`): the rotator's queue ends as `[1, 2, 3]` — three files, with
epoch 1's checkpoint still on disk — not the claimed `min(4, 2) = 2` files
`{2, 3}`.  `save_history` prunes only when the queue length already
exceeds `history` before appending, so it retains `history + 1` files,
contradicting its own docstring ("number of checkpoint files to retain"). -/
theorem save_history_retention_exceeded :
    (run_save_history 2 [0, 1, 2, 3]).checkpoint_files = [1, 2, 3] ∧
    (run_save_history 2 [0, 1, 2, 3]).checkpoint_files.length = 3 ∧
    ¬ (run_save_history 2 [0, 1, 2, 3]).checkpoint_files.length = min 4 2 := by
  decide

/-- C2 counterexample: with E = 5 epochs and frequency F = 2 the loss
series is allocated with `5 / 2 = 2` slots (Python 2 integer division),
not the claimed `ceil(5/2) = 3`. -/
theorem loss_series_len_five_two :
    loss_series_len 5 2 = 2 ∧ loss_series_len 5 2 ≠ 3 := by
  decide

/-- Slot `k` of the loss series has been written iff epoch
`(k+1)*F - 1` has completed. -/
lemma mem_loss_writes_iff (completed F k : Nat) (hF : 1 ≤ F) :
    k ∈ loss_writes completed F ↔ (k + 1) * F - 1 < completed := by
  unfold loss_writes should_fire
  simp only [List.mem_map, List.mem_filter, List.mem_range, beq_iff_eq]
  constructor
  · rintro ⟨e, ⟨he, hmod⟩, rfl⟩
    obtain ⟨m, hm⟩ := Nat.dvd_iff_mod_eq_zero.mpr hmod
    have hm1 : 1 ≤ m := by
      cases m with
      | zero => simp at hm
      | succ m' => omega
    have key : F * (m - 1) + F = F * m := by
      rw [← Nat.mul_succ]
      congr 1
      omega
    have hdiv : e / F = m - 1 := by
      have he' : e = F * (m - 1) + (F - 1) := by omega
      rw [he', Nat.mul_add_div hF, Nat.div_eq_of_lt (by omega), Nat.add_zero]
    rw [hdiv]
    have hm' : (m - 1 + 1) * F = F * m := by
      rw [Nat.sub_add_cancel hm1, Nat.mul_comm]
    rw [hm']
    omega
  · intro h
    have hpos : 1 ≤ (k + 1) * F := Nat.mul_pos (Nat.succ_pos k) hF
    refine ⟨(k + 1) * F - 1, ⟨by omega, ?_⟩, ?_⟩
    · have : (k + 1) * F - 1 + 1 = (k + 1) * F := by omega
      rw [this, Nat.mul_mod_left]
    · have he : (k + 1) * F - 1 = F - 1 + k * F := by
        have : (k + 1) * F = k * F + F := Nat.succ_mul k F
        omega
      rw [he, Nat.add_mul_div_right _ _ hF, Nat.div_eq_of_lt (by omega), Nat.zero_add]

/-- C2 (amended): the evaluation-loss observer allocates both series with
`E / F` slots (floor, Python 2 integer division), a value is present at
slot `k` iff epoch `(k+1)*F - 1` has completed, and every allocated slot
is filled once all `E` epochs complete. -/
theorem loss_series_floor_spec (E F completed k : Nat) (hF : 1 ≤ F) :
    loss_series_len E F = E / F ∧
    (k ∈ loss_writes completed F ↔ (k + 1) * F - 1 < completed) ∧
    (k < loss_series_len E F → k ∈ loss_writes E F) := by
  refine ⟨rfl, mem_loss_writes_iff completed F k hF, ?_⟩
  intro hk
  rw [mem_loss_writes_iff E F k hF]
  have h1 : k + 1 ≤ E / F := hk
  have h2 : (k + 1) * F ≤ E := (Nat.le_div_iff_mul_le hF).mp h1
  have hpos : 1 ≤ (k + 1) * F := Nat.mul_pos (Nat.succ_pos k) hF
  omega

/-- Witness for C2's amended theorem at E = 5, F = 2, k = 1. -/
theorem loss_series_floor_spec_witness :
    loss_series_len 5 2 = 5 / 2 ∧
    (1 ∈ loss_writes 5 2 ↔ (1 + 1) * 2 - 1 < 5) ∧
    (1 < loss_series_len 5 2 → 1 ∈ loss_writes 5 2) :=
  loss_series_floor_spec 5 2 5 1 (by decide)

/-- C9: with a save path, the checkpoint callback's epoch frequency is the
explicit list `range(0, epochs, serialize_interval)`; under the list
branch of `should_fire` it fires exactly at the multiples of
`serialize_interval` below `epochs` — including epoch 0, unlike an integer
frequency spec of the same interval, which would not fire at epoch 0. -/
theorem checkpoint_schedule_firing (E s e : Nat) (hE : 1 ≤ E) :
    (should_fire e (.list (checkpoint_schedule E s)) = true ↔
      ∃ k, e = k * serialize_interval s ∧ e < E) ∧
    should_fire 0 (.list (checkpoint_schedule E s)) = true ∧
    (2 ≤ serialize_interval s → should_fire 0 (.int (serialize_interval s)) = false) := by
  have hs : 1 ≤ serialize_interval s := by
    unfold serialize_interval
    split <;> omega
  have hmain : ∀ e', should_fire e' (.list (checkpoint_schedule E s)) = true ↔
      ∃ k, e' = k * serialize_interval s ∧ e' < E := by
    intro e'
    set w := serialize_interval s with hw
    unfold should_fire checkpoint_schedule pyRange
    rw [← hw]
    simp only [decide_eq_true_eq, List.mem_map, List.mem_range]
    constructor
    · rintro ⟨k, hk, rfl⟩
      refine ⟨k, rfl, ?_⟩
      have h1 : k + 1 ≤ (E + w - 1) / w := hk
      have h2 : (k + 1) * w ≤ E + w - 1 := (Nat.le_div_iff_mul_le hs).mp h1
      have h3 : (k + 1) * w = k * w + w := Nat.succ_mul k w
      omega
    · rintro ⟨k, rfl, hlt⟩
      refine ⟨k, ?_, rfl⟩
      have h2 : (k + 1) * w ≤ E + w - 1 := by
        have h3 : (k + 1) * w = k * w + w := Nat.succ_mul k w
        omega
      have h1 : k + 1 ≤ (E + w - 1) / w := (Nat.le_div_iff_mul_le hs).mpr h2
      omega
  refine ⟨hmain e, ?_, ?_⟩
  · rw [hmain 0]
    exact ⟨0, by omega, hE⟩
  · intro h2
    unfold should_fire
    simp only [beq_eq_false_iff_ne, ne_eq]
    rw [Nat.mod_eq_of_lt (by omega)]
    omega

/-- Witness for C9 at E = 5, serialize = 2, e = 4. -/
theorem checkpoint_schedule_firing_witness :
    (should_fire 4 (.list (checkpoint_schedule 5 2)) = true ↔
      ∃ k, 4 = k * serialize_interval 2 ∧ 4 < 5) ∧
    should_fire 0 (.list (checkpoint_schedule 5 2)) = true ∧
    (2 ≤ serialize_interval 2 → should_fire 0 (.int (serialize_interval 2)) = false) :=
  checkpoint_schedule_firing 5 2 4 (by decide)

/-- One step of the early-stop decider never clears the finished flag. -/
lemma early_stop_epoch_end_snd_mono {S : Type} (f : S → ℚ → S × Bool)
    (st : S × Bool) (e : Option ℚ) (h : st.2 = true) :
    (early_stop_epoch_end f st e).2 = true := by
  cases e with
  | none => exact h
  | some c => simp [early_stop_epoch_end, h]

/-- The early-stop fold keeps the finished flag set once it is set. -/
lemma early_stop_foldl_mono {S : Type} (f : S → ℚ → S × Bool)
    (l : List (Option ℚ)) (st : S × Bool) (h : st.2 = true) :
    (l.foldl (early_stop_epoch_end f) st).2 = true := by
  induction l generalizing st with
  | nil => exact h
  | cons e l ih => exact ih _ (early_stop_epoch_end_snd_mono f st e h)

/-- C5: once the early-stop decider has set the model's finished flag, it
stays set for any continuation of the run; an epoch without a cached loss
is a no-op; on an epoch with a cached loss the fold state is replaced by
the one the stop function returns, and a true shouldStop sets the flag. -/
theorem early_stop_monotone {S : Type} (stop_func : S → ℚ → S × Bool)
    (init : S) (l1 l2 : List (Option ℚ)) (st : S × Bool) (c : ℚ) :
    ((early_stop_run stop_func init l1).2 = true →
      (early_stop_run stop_func init (l1 ++ l2)).2 = true) ∧
    early_stop_epoch_end stop_func st Option.none = st ∧
    (early_stop_epoch_end stop_func st (some c)).1 = (stop_func st.1 c).1 ∧
    ((stop_func st.1 c).2 = true →
      (early_stop_epoch_end stop_func st (some c)).2 = true) := by
  refine ⟨?_, rfl, rfl, ?_⟩
  · intro h
    unfold early_stop_run at h ⊢
    rw [List.foldl_append]
    exact early_stop_foldl_mono stop_func l2 _ h
  · intro h
    simp [early_stop_epoch_end, h]

/-- Witness for C5 with the sample stop function: stopping at the first
epoch keeps the flag set after a later loss-free epoch. -/
theorem early_stop_monotone_witness :
    (early_stop_run sample_stop_func 0 ([some 0] ++ [Option.none])).2 = true ∧
    early_stop_epoch_end sample_stop_func (5, false) Option.none = (5, false) ∧
    (early_stop_epoch_end sample_stop_func (5, false) (some 0)).1
      = (sample_stop_func 5 0).1 ∧
    (early_stop_epoch_end sample_stop_func (5, false) (some 0)).2 = true := by
  obtain ⟨h1, h2, h3, h4⟩ :=
    early_stop_monotone sample_stop_func 0 [some 0] [Option.none] (5, false) 0
  exact ⟨h1 (by decide), h2, h3, h4 (by decide)⟩

/-- C6: the best-state saver is a no-op without a cached loss; with one it
saves and updates `best_cost` exactly when the best is unset or the new
cost is strictly smaller (ties and worse costs change nothing); and
`best_cost`, once set, never increases in a step. -/
theorem save_best_state_spec (st : SaveBestState) (cost : ℚ) (eil : Option ℚ) :
    save_best_epoch_end st Option.none = st ∧
    (st.best_cost = Option.none →
      save_best_epoch_end st (some cost)
        = { best_cost := some cost, saves := st.saves ++ [cost] }) ∧
    (∀ b, st.best_cost = some b → cost < b →
      save_best_epoch_end st (some cost)
        = { best_cost := some cost, saves := st.saves ++ [cost] }) ∧
    (∀ b, st.best_cost = some b → b ≤ cost → save_best_epoch_end st (some cost) = st) ∧
    (∀ b, st.best_cost = some b →
      ∃ b', (save_best_epoch_end st eil).best_cost = some b' ∧ b' ≤ b) := by
  refine ⟨rfl, ?_, ?_, ?_, ?_⟩
  · intro h
    simp [save_best_epoch_end, py_lt_none, h]
  · intro b hb hlt
    simp [save_best_epoch_end, py_lt_none, hb, hlt]
  · intro b hb hle
    simp [save_best_epoch_end, py_lt_none, hb, not_lt.mpr hle]
  · intro b hb
    cases eil with
    | none => exact ⟨b, hb, le_refl b⟩
    | some c =>
      by_cases hc : c < b
      · refine ⟨c, ?_, le_of_lt hc⟩
        simp [save_best_epoch_end, py_lt_none, hb, hc]
      · refine ⟨b, ?_, le_refl b⟩
        simp [save_best_epoch_end, py_lt_none, hb, hc]

/-- Witness for C6: a tied-or-worse cost (2 against best 1) does not save,
and a loss-free epoch changes nothing. -/
theorem save_best_state_spec_witness :
    save_best_epoch_end { best_cost := some 1, saves := [] } (some 2)
      = { best_cost := some 1, saves := [] } ∧
    save_best_epoch_end { best_cost := some 1, saves := [] } Option.none
      = { best_cost := some 1, saves := [] } :=
  ⟨(save_best_state_spec { best_cost := some 1, saves := [] } 2 Option.none).2.2.2.1 1
      rfl (by norm_num),
   (save_best_state_spec { best_cost := some 1, saves := [] } 2 Option.none).1⟩

/-- C7: the cached-epoch-loss lookup returns not-available when no series
with the label exists; with a stored series it returns a value iff
`(epoch + 1) % epoch_freq == 0`, bundling the cost and time scalars read
from slot `epoch / epoch_freq` with the display name; it is a pure read
(the embedding is a function of the store), and the consumers treat the
not-available result as a no-op. -/
theorem get_cached_epoch_loss_spec (costnm : String) (s : LossSeries) (epoch : Nat)
    (sbst : SaveBestState) {S : Type} (esf : S → ℚ → S × Bool) (esst : S × Bool) :
    get_cached_epoch_loss costnm Option.none epoch = Option.none ∧
    ((get_cached_epoch_loss costnm (some s) epoch).isSome = true ↔
      (epoch + 1) % s.epoch_freq = 0) ∧
    ((epoch + 1) % s.epoch_freq = 0 →
      get_cached_epoch_loss costnm (some s) epoch
        = some { cost := s.cost.getD (epoch / s.epoch_freq) 0,
                 time := s.time.getD (epoch / s.epoch_freq) 0,
                 costnm := costnm }) ∧
    save_best_epoch_end sbst Option.none = sbst ∧
    early_stop_epoch_end esf esst Option.none = esst := by
  refine ⟨rfl, ?_, ?_, rfl, rfl⟩
  · unfold get_cached_epoch_loss
    by_cases h : (epoch + 1) % s.epoch_freq = 0 <;> simp [h]
  · intro h
    unfold get_cached_epoch_loss
    simp [h]

/-- Witness for C7 at epoch 3 with a stored series of frequency 2. -/
theorem get_cached_epoch_loss_spec_witness :
    get_cached_epoch_loss "Loss" Option.none 3 = Option.none ∧
    ((get_cached_epoch_loss "Loss" (some sample_loss_series) 3).isSome = true ↔
      (3 + 1) % sample_loss_series.epoch_freq = 0) ∧
    get_cached_epoch_loss "Loss" (some sample_loss_series) 3
      = some { cost := sample_loss_series.cost.getD (3 / sample_loss_series.epoch_freq) 0,
               time := sample_loss_series.time.getD (3 / sample_loss_series.epoch_freq) 0,
               costnm := "Loss" } ∧
    save_best_epoch_end { best_cost := Option.none, saves := [] } Option.none
      = { best_cost := Option.none, saves := [] } ∧
    early_stop_epoch_end sample_stop_func (0, false) Option.none = (0, false) := by
  obtain ⟨h1, h2, h3, h4, h5⟩ :=
    get_cached_epoch_loss_spec "Loss" sample_loss_series 3
      { best_cost := Option.none, saves := [] } sample_stop_func (0, false)
  exact ⟨h1, h2, h3 (by decide), h4, h5⟩

/-- After minibatches `0..m-1` of an epoch, the dispatcher records
`epoch_minibatches = m` (the last minibatch index plus one) and nothing
else changes. -/
lemma foldl_on_minibatch_end (s : CallbacksState) (m : Nat) (hm : 1 ≤ m) :
    (List.range m).foldl on_minibatch_end s
      = { s with epoch_minibatches := some m } := by
  induction m with
  | zero => omega
  | succ n ih =>
    rw [List.range_succ, List.foldl_append]
    cases Nat.eq_zero_or_pos n with
    | inl h0 =>
      subst h0
      rfl
    | inr h1 =>
      rw [ih h1]
      rfl

/-- An epoch with at least one minibatch succeeds and appends the new
cumulative marker. -/
lemma run_epoch_some (s : CallbacksState) (m : Nat) (hm : 1 ≤ m) :
    run_epoch s m = some
      { epoch_marker := s.epoch_marker + m,
        epoch_minibatches := some m,
        time_markers := s.time_markers ++ [s.epoch_marker + m] } := by
  unfold run_epoch
  rw [foldl_on_minibatch_end s m hm]
  rfl

/-- Running epochs with positive minibatch counts from any state succeeds
and extends the markers with the cumulative sums. -/
lemma run_training_from (counts : List Nat) (s : CallbacksState)
    (h : ∀ c ∈ counts, 1 ≤ c) :
    ∃ t, counts.foldlM run_epoch s = some t ∧
      t.epoch_marker = s.epoch_marker + counts.sum ∧
      t.time_markers = s.time_markers ++ cum_markers s.epoch_marker counts := by
  induction counts generalizing s with
  | nil => exact ⟨s, rfl, by simp, by simp [cum_markers]⟩
  | cons c cs ih =>
    have hc : 1 ≤ c := h c (List.mem_cons_self c cs)
    have hcs : ∀ x ∈ cs, 1 ≤ x := fun x hx => h x (List.mem_cons_of_mem c hx)
    obtain ⟨t, ht, hm, htm⟩ := ih
      { epoch_marker := s.epoch_marker + c,
        epoch_minibatches := some c,
        time_markers := s.time_markers ++ [s.epoch_marker + c] } hcs
    refine ⟨t, ?_, ?_, ?_⟩
    · rw [List.foldlM_cons, run_epoch_some s c hc]
      simpa using ht
    · simp only [List.sum_cons]
      simp at hm
      omega
    · rw [htm]
      simp [cum_markers]

/-- `cum_markers` has one entry per epoch. -/
lemma cum_markers_length (base : Nat) (counts : List Nat) :
    (cum_markers base counts).length = counts.length := by
  induction counts generalizing base with
  | nil => rfl
  | cons c cs ih => simp [cum_markers, ih]

/-- Entry `e` of `cum_markers` is `base` plus the sum of the first `e + 1`
counts. -/
lemma cum_markers_get (base : Nat) (counts : List Nat) (e : Nat)
    (he : e < counts.length) :
    (cum_markers base counts).get? e = some (base + (counts.take (e + 1)).sum) := by
  induction counts generalizing base e with
  | nil => simp at he
  | cons c cs ih =>
    cases e with
    | zero => simp [cum_markers]
    | succ e' =>
      have he' : e' < cs.length := by simpa using he
      simp only [cum_markers, List.get?_cons_succ]
      rw [ih (base + c) e' he']
      simp only [List.take_succ_cons, List.sum_cons]
      congr 1
      omega

/-- Sums of prefixes of a `Nat` list are monotone in the prefix length. -/
lemma take_sum_mono (counts : List Nat) (i j : Nat) (hij : i ≤ j) :
    (counts.take i).sum ≤ (counts.take j).sum := by
  have h2 : (counts.take j).take i = counts.take i := by
    rw [List.take_take]
    congr 1
    omega
  calc (counts.take i).sum
      ≤ (counts.take i).sum + ((counts.take j).drop i).sum := Nat.le_add_right _ _
    _ = ((counts.take j).take i ++ (counts.take j).drop i).sum := by
        rw [List.sum_append, h2]
    _ = (counts.take j).sum := by rw [List.take_append_drop]

/-- C4: after every `on_epoch_end(epoch)` of the dispatcher,
`time_markers/minibatch[epoch]` holds the cumulative minibatch count
through the end of that epoch (the running sum of per-epoch counts, each
the last minibatch index plus one), and the marker series is
non-decreasing. -/
theorem run_training_marker_invariant (counts : List Nat)
    (h : ∀ c ∈ counts, 1 ≤ c) :
    ∃ t, run_training counts = some t ∧
      (∀ e, e < counts.length →
        t.time_markers.get? e = some ((counts.take (e + 1)).sum)) ∧
      (∀ i j a b, i ≤ j →
        t.time_markers.get? i = some a → t.time_markers.get? j = some b →
          a ≤ b) := by
  obtain ⟨t, ht, hm, htm⟩ := run_training_from counts init_callbacks h
  have htm' : t.time_markers = cum_markers 0 counts := by
    rw [htm]
    simp [init_callbacks]
  refine ⟨t, ht, ?_, ?_⟩
  · intro e he
    rw [htm', cum_markers_get 0 counts e he, Nat.zero_add]
  · intro i j a b hij ha hb
    rw [htm'] at ha hb
    have hi : i < counts.length := by
      have := List.get?_eq_some.mp ha
      obtain ⟨hlen, _⟩ := this
      rwa [cum_markers_length] at hlen
    have hj : j < counts.length := by
      have := List.get?_eq_some.mp hb
      obtain ⟨hlen, _⟩ := this
      rwa [cum_markers_length] at hlen
    rw [cum_markers_get 0 counts i hi] at ha
    rw [cum_markers_get 0 counts j hj] at hb
    have ha' : a = (counts.take (i + 1)).sum := by
      have := Option.some.inj ha
      omega
    have hb' : b = (counts.take (j + 1)).sum := by
      have := Option.some.inj hb
      omega
    rw [ha', hb']
    exact take_sum_mono counts (i + 1) (j + 1) (by omega)

/-- Witness for C4 at three epochs of four minibatches each. -/
theorem run_training_marker_invariant_witness :
    ∃ t, run_training [4, 4, 4] = some t ∧
      (∀ e, e < ([4, 4, 4] : List Nat).length →
        t.time_markers.get? e = some ((([4, 4, 4] : List Nat).take (e + 1)).sum)) ∧
      (∀ i j a b, i ≤ j →
        t.time_markers.get? i = some a → t.time_markers.get? j = some b →
          a ≤ b) :=
  run_training_marker_invariant [4, 4, 4] (by decide)

/-- C10: `on_epoch_end` on the fresh dispatcher state — no
`on_minibatch_end` has ever run, so `epoch_minibatches` was never assigned
— fails with the missing-attribute error; under the normal lifecycle
(every epoch runs at least one minibatch before its epoch end) the whole
run succeeds. -/
theorem on_epoch_end_requires_minibatch :
    on_epoch_end init_callbacks = Option.none ∧
    (∀ counts, (∀ c ∈ counts, 1 ≤ c) → (run_training counts).isSome = true) := by
  refine ⟨rfl, ?_⟩
  intro counts h
  obtain ⟨t, ht, _, _⟩ := run_training_from counts init_callbacks h
  show (counts.foldlM run_epoch init_callbacks).isSome = true
  rw [ht]
  rfl

/-- Witness for C10: the fresh-state failure, and a concrete two-epoch run
that succeeds. -/
theorem on_epoch_end_requires_minibatch_witness :
    on_epoch_end init_callbacks = Option.none ∧
    (run_training [2, 3]).isSome = true :=
  ⟨on_epoch_end_requires_minibatch.1,
   on_epoch_end_requires_minibatch.2 [2, 3] (by decide)⟩

/-- Appending to a window that holds the last `w` elements of `xs` keeps
the last `w` elements of `xs ++ [x]`. -/
lemma deque_append_window (w : Nat) (xs : List ℚ) (x : ℚ) :
    deque_append w (xs.drop (xs.length - w)) x
      = (xs ++ [x]).drop (xs.length + 1 - w) := by
  unfold deque_append
  rw [← List.drop_append_of_le_length (Nat.sub_le _ _), List.drop_drop]
  congr 1
  simp only [List.length_drop, List.length_append, List.length_cons,
    List.length_nil]
  omega

/-- Fold invariant for `TrainCostCallback`: after processing all of
`costs`, the window holds the last `w` costs, one value was recorded per
minibatch, and the value at tick `t` is the mean of the last costs ending
at `t`. -/
lemma train_cost_foldl_spec (w : Nat) (costs : List ℚ) :
    ((costs.foldl (train_cost_step w) ([], [])).1
      = costs.drop (costs.length - w)) ∧
    ((costs.foldl (train_cost_step w) ([], [])).2.length = costs.length) ∧
    (∀ t, t < costs.length →
      (costs.foldl (train_cost_step w) ([], [])).2.get? t
        = some (((costs.take (t + 1)).drop (t + 1 - w)).sum
                / ((((costs.take (t + 1)).drop (t + 1 - w)).length : Nat) : ℚ))) := by
  induction costs using List.reverseRecOn with
  | nil =>
    refine ⟨by simp, rfl, ?_⟩
    intro t ht
    simp at ht
  | append_singleton xs x ih =>
    obtain ⟨ih1, ih2, ih3⟩ := ih
    have hstep : (xs ++ [x]).foldl (train_cost_step w) ([], [])
        = train_cost_step w (xs.foldl (train_cost_step w) ([], [])) x := by
      rw [List.foldl_append]
      rfl
    have hhist : deque_append w (xs.foldl (train_cost_step w) ([], [])).1 x
        = (xs ++ [x]).drop (xs.length + 1 - w) := by
      rw [ih1, deque_append_window]
    refine ⟨?_, ?_, ?_⟩
    · rw [hstep]
      show deque_append w (xs.foldl (train_cost_step w) ([], [])).1 x = _
      rw [hhist]
      congr 1
      simp
    · rw [hstep]
      show ((xs.foldl (train_cost_step w) ([], [])).2 ++ [_]).length = _
      simp [ih2]
    · intro t ht
      rw [hstep]
      show ((xs.foldl (train_cost_step w) ([], [])).2 ++ [_]).get? t = _
      rcases Nat.lt_or_ge t xs.length with hlt | hge
      · rw [List.get?_append (by rw [ih2]; exact hlt)]
        rw [ih3 t hlt, List.take_append_of_le_length (by omega)]
      · have ht' : t = xs.length := by
          simp only [List.length_append, List.length_cons, List.length_nil] at ht
          omega
        subst ht'
        rw [List.get?_append_right (le_of_eq ih2), ih2, Nat.sub_self]
        have htake : (xs ++ [x]).take (xs.length + 1) = xs ++ [x] := by
          have : (xs ++ [x]).length = xs.length + 1 := by simp
          rw [← this, List.take_length]
        rw [htake, hhist]
        rfl

/-- C3: with window `w = min(totalMinibatches, configuredWindow)`, the
value the cost tracker records at global tick `t` is the arithmetic mean
of the last `min(w, t+1)` costs ending at `t`, and the write position is
`marker(epoch-1) + minibatch` (marker taken as 0 for epoch 0). -/
theorem train_cost_smoothing (total_mb wcfg : Nat) (costs : List ℚ) (t : Nat)
    (marker : Nat → Nat) (epoch minibatch : Nat)
    (ht : t < costs.length) :
    (train_cost_run (train_cost_wsz total_mb wcfg) costs).get? t
      = some (((costs.take (t + 1)).drop (t + 1 - train_cost_wsz total_mb wcfg)).sum
              / ((min (train_cost_wsz total_mb wcfg) (t + 1) : Nat) : ℚ)) ∧
    ((costs.take (t + 1)).drop (t + 1 - train_cost_wsz total_mb wcfg)).length
      = min (train_cost_wsz total_mb wcfg) (t + 1) ∧
    train_cost_write_pos marker epoch minibatch
      = (if 0 < epoch then marker (epoch - 1) else 0) + minibatch := by
  have hlen : ((costs.take (t + 1)).drop
      (t + 1 - train_cost_wsz total_mb wcfg)).length
      = min (train_cost_wsz total_mb wcfg) (t + 1) := by
    rw [List.length_drop, List.length_take]
    omega
  refine ⟨?_, hlen, rfl⟩
  obtain ⟨h1, h2, h3⟩ := train_cost_foldl_spec (train_cost_wsz total_mb wcfg) costs
  unfold train_cost_run
  rw [h3 t ht, hlen]

/-- Witness for C3 at the claim's scenario: window configured 2 over 12
minibatches, costs `1..12`, tick 3. -/
theorem train_cost_smoothing_witness :
    (train_cost_run (train_cost_wsz 12 2)
        [1, 2, 3, 4, 5, 6, 7, 8, 9, 10, 11, 12]).get? 3
      = some (((([1, 2, 3, 4, 5, 6, 7, 8, 9, 10, 11, 12] : List ℚ).take (3 + 1)).drop
              (3 + 1 - train_cost_wsz 12 2)).sum
              / ((min (train_cost_wsz 12 2) (3 + 1) : Nat) : ℚ)) ∧
    ((([1, 2, 3, 4, 5, 6, 7, 8, 9, 10, 11, 12] : List ℚ).take (3 + 1)).drop
        (3 + 1 - train_cost_wsz 12 2)).length
      = min (train_cost_wsz 12 2) (3 + 1) ∧
    train_cost_write_pos (fun e => 4 * (e + 1)) 1 0
      = (if 0 < 1 then (fun e => 4 * (e + 1)) (1 - 1) else 0) + 0 :=
  train_cost_smoothing 12 2 [1, 2, 3, 4, 5, 6, 7, 8, 9, 10, 11, 12] 3
    (fun e => 4 * (e + 1)) 1 0 (by decide)

end Neon
